import Mathlib

/-! Verification development.
Verification of the `simc_support` data-refresh utility (`self_update.py`).

The script drives two external tools (casc/dbc extractors) per locale and then
runs a pure filter/merge pass over the decoded JSON item records.  We embed:

* JSON values and Python dictionaries (insertion-ordered association lists,
  `dict.get`, `dict[k]` with `KeyError`, `dict[k] = v`);
* the trinket filter predicates (`is_trinket`, `is_gte_rare`, `is_shadowlands`,
  `is_gte_ilevel`, `is_gte_level`, `is_whitelisted`) and the filtering list
  comprehension of `update_trinkets`;
* the seed/enrich merge pass of `update_trinkets`, including the construction
  of the (discarded) `new_item` dictionary, which can raise `KeyError`;
* the subprocess-sequencing skeletons of `get_python`, `casc` and `dbc` as
  event traces over an abstract environment supplying each subprocess result.

Fallible Python code is modelled with `Except String`; a raised exception
aborts the surrounding pass exactly as in the source.
-/

namespace SimcSupport

mutual

/-- A decoded JSON value held in an item record (`None`, int, str or dict). -/
inductive Value where
  | vNull : Value
  | vInt : Int → Value
  | vStr : String → Value
  | vDict : Fields → Value
deriving DecidableEq, Repr

/-- A Python dictionary with string keys: an insertion-ordered association
list, as produced by `json.load` and by dict literals. -/
inductive Fields where
  | nil : Fields
  | cons : String → Value → Fields → Fields
deriving DecidableEq, Repr

end

/-- First value stored under key `k`, if any (keys are unique in dictionaries
built by insertion, so this is Python dictionary lookup). -/
def Fields.get? : Fields → String → Option Value
  | .nil, _ => none
  | .cons k' v rest, k => if k' = k then some v else rest.get? k

/-- Python `d.get(k)`: the stored value, or `None` when the key is absent. -/
def Fields.pyGet (d : Fields) (k : String) : Value :=
  (d.get? k).getD Value.vNull

/-- Python `d[k]`: the stored value, or a raised `KeyError` when absent. -/
def Fields.getE (d : Fields) (k : String) : Except String Value :=
  match d.get? k with
  | some v => .ok v
  | none => .error ("KeyError: " ++ k)

/-- Python `d[k] = v`: replace the value at the first occurrence of `k`,
keeping its position, or append the new key at the end. -/
def Fields.set : Fields → String → Value → Fields
  | .nil, k, v => .cons k v .nil
  | .cons k' v' rest, k, v =>
    if k' = k then .cons k' v rest else .cons k' v' (rest.set k v)

/-- Python `k in d`. -/
def Fields.hasKey (d : Fields) (k : String) : Bool :=
  (d.get? k).isSome

/-- Python `list(d.keys())`, in insertion order. -/
def Fields.keys : Fields → List String
  | .nil => []
  | .cons k _ rest => k :: rest.keys

/-- Build a dictionary literal from a list of entries (sequential insertion
with distinct keys). -/
def Fields.ofList : List (String × Value) → Fields
  | [] => .nil
  | (k, v) :: rest => .cons k v (Fields.ofList rest)

/-- The fixed locale list `_LOCALES` of `self_update.py`. -/
def LOCALES : List String :=
  ["en_US", "ko_KR", "fr_FR", "de_DE", "zh_CN", "es_ES", "ru_RU", "it_IT", "pt_PT"]

/-- The `WHITELIST` constant of `update_trinkets`: the empty list. -/
def WHITELIST : List Value := []

/-- Source `is_trinket`: `item.get("inv_type") == 12`.  Python `==` across types is
plain value equality and never raises. -/
def is_trinket (item : Fields) : Bool :=
  item.pyGet "inv_type" == Value.vInt 12

/-- Source `is_gte_rare`: `item.get("quality") >= 3`.  Comparing `None` (missing key)
or a non-integer against an int raises `TypeError`. -/
def is_gte_rare (item : Fields) : Except String Bool :=
  match item.pyGet "quality" with
  | Value.vInt q => .ok (3 ≤ q)
  | _ => .error "TypeError: quality is not comparable to int"

/-- Source `is_gte_ilevel`: `item.get("ilevel") >= 155`. -/
def is_gte_ilevel (item : Fields) : Except String Bool :=
  match item.pyGet "ilevel" with
  | Value.vInt l => .ok (155 ≤ l)
  | _ => .error "TypeError: ilevel is not comparable to int"

/-- Source `is_gte_level`: `item.get("req_level") >= 50`.  Defined in the source but
never called by the filter (its use in `is_shadowlands` is commented out). -/
def is_gte_level (item : Fields) : Except String Bool :=
  match item.pyGet "req_level" with
  | Value.vInt r => .ok (50 ≤ r)
  | _ => .error "TypeError: req_level is not comparable to int"

/-- Source `is_shadowlands`: `return is_gte_ilevel(item)  # and is_gte_level(item)`. -/
def is_shadowlands (item : Fields) : Except String Bool :=
  is_gte_ilevel item

/-- Source `is_whitelisted`: `item.get("id") in WHITELIST or item.get("name") in
WHITELIST`, with the whitelist as an explicit parameter. -/
def is_whitelisted (wl : List Value) (item : Fields) : Bool :=
  wl.contains (item.pyGet "id") || wl.contains (item.pyGet "name")

/-- One evaluation of the filter predicate of the list comprehension:
`is_trinket(item) and is_gte_rare(item) and is_shadowlands(item) or
is_whitelisted(item)`, with Python short-circuiting (`or` binds looser than
`and`). -/
def keep_item (wl : List Value) (item : Fields) : Except String Bool :=
  if is_trinket item then
    match is_gte_rare item with
    | .error e => .error e
    | .ok r =>
      if r then
        match is_shadowlands item with
        | .error e => .error e
        | .ok s =>
          if s then .ok true else .ok (is_whitelisted wl item)
      else .ok (is_whitelisted wl item)
  else .ok (is_whitelisted wl item)

/-- The filtering list comprehension over one locale's decoded items; an
exception raised by the predicate aborts the whole comprehension. -/
def filter_items (wl : List Value) : List Fields → Except String (List Fields)
  | [] => .ok []
  | item :: rest =>
    match keep_item wl item with
    | .error e => .error e
    | .ok b =>
      match filter_items wl rest with
      | .error e => .error e
      | .ok tail => .ok (if b then item :: tail else tail)

/-- The `item_keys` allow-list of `update_trinkets`: fourteen named keys
followed by `stat_alloc_i`/`stat_type_i` for `i` in `1..10`. -/
def item_keys : List String :=
  ["id", "race_mask", "desc", "name", "duration", "bag_family",
   "ranged_mod_range", "ilevel", "class_mask", "id_expansion", "req_level",
   "inv_type", "quality", "translations"] ++
  (List.range 10).flatMap
    (fun i => ["stat_alloc_" ++ toString (i + 1), "stat_type_" ++ toString (i + 1)])

/-- The `new_item` construction loop of the seed pass:
`for key in item_keys: new_item[key] = item[key]`.  `item[key]` raises
`KeyError` when the item lacks an allow-listed key. -/
def build_new_item (item : Fields) : List String → Fields → Except String Fields
  | [], acc => .ok acc
  | k :: rest, acc =>
    match item.getE k with
    | .error e => .error e
    | .ok v => build_new_item item rest (acc.set k v)

/-- The seed pass body for one item of the first locale:
`item["translations"] = {locale: item["name"]}`, then the `new_item`
construction (built and then discarded), then `trinkets.append(item)`. -/
def seed_item (locale : String) (item : Fields) : Except String Fields :=
  match item.getE "name" with
  | .error e => .error e
  | .ok nm =>
    match
      build_new_item
        (item.set "translations" (Value.vDict (Fields.cons locale nm Fields.nil)))
        item_keys Fields.nil
    with
    | .error e => .error e
    | .ok _ =>
      .ok (item.set "translations" (Value.vDict (Fields.cons locale nm Fields.nil)))

/-- The seed pass over the whole first locale, in list order. -/
def seed_items (locale : String) : List Fields → Except String (List Fields)
  | [] => .ok []
  | item :: rest =>
    match seed_item locale item with
    | .error e => .error e
    | .ok t =>
      match seed_items locale rest with
      | .error e => .error e
      | .ok ts => .ok (t :: ts)

/-- The enrich pass body for one trinket and one later-locale item:
`if trinket["id"] == item["id"]: trinket["translations"][locale] =
item["name"]`. -/
def enrich_trinket (locale : String) (item trinket : Fields) :
    Except String Fields :=
  match trinket.getE "id" with
  | .error e => .error e
  | .ok tid =>
    match item.getE "id" with
    | .error e => .error e
    | .ok iid =>
      if tid = iid then
        match item.getE "name" with
        | .error e => .error e
        | .ok nm =>
          match trinket.getE "translations" with
          | .error e => .error e
          | .ok (Value.vDict d) =>
            .ok (trinket.set "translations" (Value.vDict (d.set locale nm)))
          | .ok _ =>
            .error "TypeError: object does not support item assignment"
      else .ok trinket

/-- The inner enrich loop: one later-locale item visits every trinket. -/
def enrich_one (locale : String) (item : Fields) :
    List Fields → Except String (List Fields)
  | [] => .ok []
  | t :: ts =>
    match enrich_trinket locale item t with
    | .error e => .error e
    | .ok t' =>
      match enrich_one locale item ts with
      | .error e => .error e
      | .ok ts' => .ok (t' :: ts')

/-- The enrich pass over all items of one later locale, in list order. -/
def enrich_items (locale : String) :
    List Fields → List Fields → Except String (List Fields)
  | trinkets, [] => .ok trinkets
  | trinkets, item :: rest =>
    match enrich_one locale item trinkets with
    | .error e => .error e
    | .ok trinkets' => enrich_items locale trinkets' rest

/-- The enrich passes of all locales after the first, in locale order. -/
def enrich_locales (data : String → List Fields) :
    List Fields → List String → Except String (List Fields)
  | trinkets, [] => .ok trinkets
  | trinkets, locale :: rest =>
    match enrich_items locale trinkets (data locale) with
    | .error e => .error e
    | .ok trinkets' => enrich_locales data trinkets' rest

/-- The merge pass of `update_trinkets`: the first locale seeds the trinket
list, every later locale only enriches `translations`. -/
def merge_pass (locales : List String) (data : String → List Fields) :
    Except String (List Fields) :=
  match locales with
  | [] => .ok []
  | first :: rest =>
    match seed_items first (data first) with
    | .error e => .error e
    | .ok trinkets => enrich_locales data trinkets rest

/-- The per-locale filtering loop of `update_trinkets`, building the `data`
dictionary in locale order. -/
def filter_data (wl : List Value) (raw : String → List Fields) :
    List String → Except String (List (String × List Fields))
  | [] => .ok []
  | locale :: rest =>
    match filter_items wl (raw locale) with
    | .error e => .error e
    | .ok f =>
      match filter_data wl raw rest with
      | .error e => .error e
      | .ok tail => .ok ((locale, f) :: tail)

/-- The in-memory part of `update_trinkets`: filter every locale's decoded
item list, then run the merge pass over the resulting `data` dictionary. -/
def update_trinkets_core (wl : List Value) (locales : List String)
    (raw : String → List Fields) : Except String (List Fields) :=
  match filter_data wl raw locales with
  | .error e => .error e
  | .ok data => merge_pass locales (fun l => ((data.lookup l).getD []))

/-- Stat fields shared by the concrete example items. -/
def statFields : List (String × Value) :=
  (List.range 10).flatMap
    (fun i => [("stat_alloc_" ++ toString (i + 1), Value.vInt 0),
               ("stat_type_" ++ toString (i + 1), Value.vInt (-1))])

/-- All non-stat allow-listed attributes of a concrete trinket named `Foo`
(id 1, inv_type 12, quality 4, ilevel 200), except `translations`. -/
def baseFooFields : List (String × Value) :=
  [("id", Value.vInt 1), ("race_mask", Value.vInt 0), ("desc", Value.vStr ""),
   ("name", Value.vStr "Foo"), ("duration", Value.vInt 0),
   ("bag_family", Value.vInt 0), ("ranged_mod_range", Value.vInt 0),
   ("ilevel", Value.vInt 200), ("class_mask", Value.vInt 0),
   ("id_expansion", Value.vInt 8), ("req_level", Value.vInt 50),
   ("inv_type", Value.vInt 12), ("quality", Value.vInt 4)]

/-- A trinket record carrying every allow-listed attribute. -/
def itemFooFull : Fields := Fields.ofList (baseFooFields ++ statFields)

/-- A trinket record carrying every allow-listed attribute plus one extra
key `flavor` that is not on the `item_keys` allow-list. -/
def c1_item : Fields :=
  Fields.ofList (baseFooFields ++ statFields ++ [("flavor", Value.vStr "tasty")])

/-- Per-locale decoded input for the C1 run: the extra-key item in the seed
locale `en_US`, nothing anywhere else. -/
def c1_data : String → List Fields := fun l =>
  if l = "en_US" then [c1_item] else []

/-- Locale A's fabricated item from the spec's two-locale example:
`{id:1, name:"Foo", inv_type:12, quality:4, ilevel:200}`. -/
def itemFoo : Fields :=
  Fields.ofList
    [("id", Value.vInt 1), ("name", Value.vStr "Foo"),
     ("inv_type", Value.vInt 12), ("quality", Value.vInt 4),
     ("ilevel", Value.vInt 200)]

/-- Locale B's fabricated item from the spec's two-locale example:
`{id:1, name:"Faux"}`. -/
def itemFaux : Fields :=
  Fields.ofList [("id", Value.vInt 1), ("name", Value.vStr "Faux")]

/-- The spec's fabricated two-locale input, verbatim. -/
def c2_raw : String → List Fields := fun l =>
  if l = "A" then [itemFoo] else if l = "B" then [itemFaux] else []

/-- The two-locale input with locale A's item extended to carry every
allow-listed attribute (locale B's item unchanged). -/
def c2_amended_raw : String → List Fields := fun l =>
  if l = "A" then [itemFooFull] else if l = "B" then [itemFaux] else []

/-- Result of a `subprocess.run` call: exit status and captured streams. -/
structure ProcResult where
  returncode : Int
  stdout : String
  stderr : String
deriving DecidableEq, Repr

/-- Captured standard output of `python --version` and `python3 --version`,
the only observations `get_python` makes. -/
structure PyEnv where
  python_version_stdout : String
  python3_version_stdout : String
deriving DecidableEq, Repr

/-- A streamed fetch subprocess: drained standard-output lines and the exit
status reported after the stream ends. -/
structure FetchResult where
  stdoutLines : List String
  returncode : Int
deriving DecidableEq, Repr

/-- Tokenizer behind Python `bytes.split()` with no argument: maximal runs of
non-whitespace characters, whitespace runs collapsed, no empty tokens. -/
def py_split_aux : List Char → List Char → List String
  | [], acc => if acc = [] then [] else [String.mk acc.reverse]
  | c :: cs, acc =>
    if c.isWhitespace then
      (if acc = [] then py_split_aux cs []
       else String.mk acc.reverse :: py_split_aux cs [])
    else py_split_aux cs (c :: acc)

/-- Python `s.split()`. -/
def py_split (s : String) : List String :=
  py_split_aux s.data []

/-- Python `s.startswith(pre)`. -/
def py_startswith (s pre : String) : Bool :=
  pre.data.isPrefixOf s.data

/-- Models `output.stdout.split()[1].startswith(b"3")`: the second whitespace-separated
token of a version report starts with `3`; indexing an absent token raises. -/
def python_reports_3 (stdout : String) : Except String Bool :=
  match py_split stdout with
  | _ :: version :: _ => .ok (py_startswith version "3")
  | _ => .error "IndexError: list index out of range"

/-- Source `get_python`: raise `SystemError` unless `python` or `python3` reports a
Python 3 version, preferring `"python"` (Python `or` short-circuits, so the
`python3` check only runs when the `python` check is falsy). -/
def get_python (py : PyEnv) : Except String String :=
  match python_reports_3 py.python_version_stdout with
  | .error e => .error e
  | .ok p =>
    if p then .ok "python"
    else
      match python_reports_3 py.python3_version_stdout with
      | .error e => .error e
      | .ok p3 =>
        if p3 then .ok "python3"
        else .error "SystemError: Python 3 is required."

/-- Observable actions of the fetch stage (`casc`), in program order. -/
inductive CascEvent where
  | infoLog (msg : String)
  | debugLog (msg : String)
  | errorLog (msg : String)
  | fetchInvocation (command : List String)
deriving DecidableEq, Repr

/-- The locale-independent part of the `casc_extract.py` command line. -/
def casc_base_command (python : String) (ptr beta : Bool) : List String :=
  [python, "casc_extract.py", "--cdn", "-m", "batch"] ++
  (if ptr then ["--ptr"] else if beta then ["--beta"] else [])

/-- The full fetch command for one locale. -/
def casc_locale_command (base : List String) (output locale : String) :
    List String :=
  base ++ ["--locale", locale, "-o", output ++ "/" ++ locale]

/-- One iteration of the fetch loop: log the locale, start the subprocess,
relay its standard output line-by-line at debug level, and log an error when
the exit status is non-zero. -/
def casc_locale_events (env : String → FetchResult) (base : List String)
    (output locale : String) : List CascEvent :=
  CascEvent.infoLog locale ::
  CascEvent.fetchInvocation (casc_locale_command base output locale) ::
  (env locale).stdoutLines.map CascEvent.debugLog ++
  (if (env locale).returncode ≠ 0 then
     [CascEvent.errorLog ("Error occured while loading " ++ locale ++ ".")]
   else [])

/-- The fetch loop over a locale list, in list order. -/
def casc_loop (env : String → FetchResult) (base : List String)
    (output : String) (locs : List String) : List CascEvent :=
  locs.flatMap (casc_locale_events env base output)

/-- The `casc` stage: skip when `--no-load` is set, otherwise detect the
Python interpreter and run the fetch loop over `_LOCALES`.  A raised
`get_python` exception propagates before any fetch subprocess starts. -/
def casc_run (py : PyEnv) (no_load ptr beta : Bool)
    (env : String → FetchResult) (output : String) :
    Except String (List CascEvent) :=
  if no_load then .ok [CascEvent.infoLog "Skipping download"]
  else
    match get_python py with
    | .error e => .error e
    | .ok python =>
      .ok (CascEvent.infoLog "Downloading files (casc)" ::
        casc_loop env (casc_base_command python ptr beta) output LOCALES)

/-- Observable actions of the extraction stage (`dbc`), in program order. -/
inductive DbcEvent where
  | infoLog (msg : String)
  | errorLog (msg : String)
  | mkdirCall (path : String)
  | fileWrite (path : String) (content : String)
deriving DecidableEq, Repr

/-- Source `get_compiled_data_path`: `os.path.join(args.output, "compiled", locale)`. -/
def get_compiled_data_path (output locale : String) : String :=
  output ++ "/compiled/" ++ locale

/-- One iteration of the extraction loop for a `(table file, locale)` pair:
log the pair, create the compiled directory, run the extractor, and either
log an error including the captured standard error (non-zero exit) or write
the captured standard output to `<output>/compiled/<locale>/<file>.json`
(zero exit).  The subprocess result is supplied by `env`. -/
def dbc_pair_events (env : String → String → ProcResult) (output : String)
    (file locale : String) : List DbcEvent :=
  DbcEvent.infoLog (file ++ " " ++ locale) ::
  DbcEvent.mkdirCall (get_compiled_data_path output locale) ::
  (if (env file locale).returncode ≠ 0 then
     [DbcEvent.errorLog ("Error occured while extracting " ++ file ++ " " ++
        locale ++ ". " ++ (env file locale).stderr)]
   else
     [DbcEvent.fileWrite
        (get_compiled_data_path output locale ++ "/" ++ file ++ ".json")
        (env file locale).stdout])

/-- The extraction loop: files outermost, locales innermost, as in the
source. -/
def dbc_loop (env : String → String → ProcResult) (output : String)
    (files : List String) : List DbcEvent :=
  files.flatMap (fun file =>
    LOCALES.flatMap (fun locale => dbc_pair_events env output file locale))

/-- The `dbc` stage: skip when `--no-extract` is set, otherwise detect the
Python interpreter and run the extraction loop. -/
def dbc_run (py : PyEnv) (no_extract : Bool)
    (env : String → String → ProcResult) (output : String)
    (files : List String) : Except String (List DbcEvent) :=
  if no_extract then .ok [DbcEvent.infoLog "Skipping extraction"]
  else
    match get_python py with
    | .error e => .error e
    | .ok _python =>
      .ok (DbcEvent.infoLog "Extracting files (dbc)" :: dbc_loop env output files)

/-- What one later-locale enrich step (over the item list `items` of locale
`locale`) does to a single trinket: every key other than `translations` is
untouched, and the translations dictionary gains exactly the key `locale`,
and only when some item of `items` has the trinket's identifier. -/
def EnrichInv (locale : String) (items : List Fields) (t t' : Fields) : Prop :=
  (∀ k, k ≠ "translations" → t'.get? k = t.get? k) ∧
  ∀ d, t.get? "translations" = some (Value.vDict d) →
    ∃ d', t'.get? "translations" = some (Value.vDict d') ∧
      ∀ K, (d'.hasKey K = true ↔
        (d.hasKey K = true ∨ (K = locale ∧ ∃ iv, t.get? "id" = some iv ∧
          ∃ item ∈ items, item.get? "id" = some iv)))

/-- What the whole sequence of enrich passes over the locales `Ls` does to a
single trinket. -/
def LocalesInv (data : String → List Fields) (Ls : List String)
    (t t' : Fields) : Prop :=
  (∀ k, k ≠ "translations" → t'.get? k = t.get? k) ∧
  ∀ d, t.get? "translations" = some (Value.vDict d) →
    ∃ d', t'.get? "translations" = some (Value.vDict d') ∧
      ∀ K, (d'.hasKey K = true ↔
        (d.hasKey K = true ∨ (K ∈ Ls ∧ ∃ iv, t.get? "id" = some iv ∧
          ∃ item ∈ data K, item.get? "id" = some iv)))

/-- An item that is not a trinket but carries the whitelisted identifier 7. -/
def wItem : Fields := Fields.ofList [("id", Value.vInt 7)]

/-- Per-locale filtered data for the C4 witness run: the full item seeds from
`en_US` and `ko_KR` supplies a translation for the same identifier. -/
def c4_data : String → List Fields := fun l =>
  if l = "en_US" then [itemFooFull] else if l = "ko_KR" then [itemFaux] else []

/-- The merged record produced from `c4_data`. -/
def c4_rec : Fields :=
  itemFooFull.set "translations"
    (Value.vDict (Fields.cons "en_US" (Value.vStr "Foo")
      (Fields.cons "ko_KR" (Value.vStr "Faux") Fields.nil)))

/-- The merged record produced by running the merge pass directly over
`c2_amended_raw` (no filtering, so locale B's record also matches). -/
def c5_rec : Fields :=
  itemFooFull.set "translations"
    (Value.vDict (Fields.cons "A" (Value.vStr "Foo")
      (Fields.cons "B" (Value.vStr "Faux") Fields.nil)))

/-- A `PyEnv` whose `python` interpreter reports Python 3. -/
def py3Env : PyEnv := ⟨"Python 3.9.0", "Python 3.9.0"⟩

/-- A `PyEnv` where both interpreters report Python 2. -/
def py2Env : PyEnv := ⟨"Python 2.7.18", "Python 2.7.18"⟩

/-- An extractor environment that succeeds only on `(ItemSparse, en_US)`. -/
def dbcEnvW : String → String → ProcResult := fun file locale =>
  if file = "ItemSparse" ∧ locale = "en_US" then ⟨0, "[]", ""⟩
  else ⟨1, "", "missing table"⟩

/-- A fetch environment that fails only on `fr_FR`. -/
def cascEnvW : String → FetchResult := fun locale =>
  ⟨["extracting"], if locale = "fr_FR" then 1 else 0⟩

theorem Fields.get?_set_self : ∀ (d : Fields) (k : String) (v : Value),
    (d.set k v).get? k = some v
  | .nil, k, v => by simp [Fields.set, Fields.get?]
  | .cons k' v' rest, k, v => by
    by_cases h : k' = k
    · simp [Fields.set, Fields.get?, h]
    · simp [Fields.set, Fields.get?, h, Fields.get?_set_self rest k v]

theorem Fields.get?_set_ne : ∀ (d : Fields) (k k' : String) (v : Value),
    k' ≠ k → (d.set k v).get? k' = d.get? k'
  | .nil, k, k', v, h => by
    simp [Fields.set, Fields.get?, Ne.symm h]
  | .cons k0 v0 rest, k, k', v, h => by
    by_cases h0 : k0 = k
    · subst h0
      simp [Fields.set, Fields.get?, Ne.symm h]
    · by_cases h1 : k0 = k'
      · subst h1
        simp [Fields.set, Fields.get?, h0, Fields.get?]
      · simp [Fields.set, Fields.get?, h0, h1, Fields.get?_set_ne rest k k' v h]

theorem Fields.hasKey_set (d : Fields) (k k' : String) (v : Value) :
    (d.set k v).hasKey k' = (d.hasKey k' || decide (k' = k)) := by
  by_cases h : k' = k
  · subst h
    simp [Fields.hasKey, Fields.get?_set_self]
  · simp [Fields.hasKey, Fields.get?_set_ne d k k' v h, h]

theorem Fields.keys_set_of_hasKey : ∀ (d : Fields) (k : String) (v : Value),
    d.hasKey k = true → (d.set k v).keys = d.keys
  | .nil, k, v, h => by simp [Fields.hasKey, Fields.get?] at h
  | .cons k0 v0 rest, k, v, h => by
    by_cases h0 : k0 = k
    · simp [Fields.set, Fields.keys, h0]
    · have h' : rest.hasKey k = true := by
        simpa [Fields.hasKey, Fields.get?, h0] using h
      simp [Fields.set, Fields.keys, h0, Fields.keys_set_of_hasKey rest k v h']

theorem Fields.keys_set_of_not_hasKey : ∀ (d : Fields) (k : String) (v : Value),
    d.hasKey k = false → (d.set k v).keys = d.keys ++ [k]
  | .nil, k, v, _ => by simp [Fields.set, Fields.keys]
  | .cons k0 v0 rest, k, v, h => by
    by_cases h0 : k0 = k
    · simp [Fields.hasKey, Fields.get?, h0] at h
    · have h' : rest.hasKey k = false := by
        simpa [Fields.hasKey, Fields.get?, h0] using h
      simp [Fields.set, Fields.keys, h0, Fields.keys_set_of_not_hasKey rest k v h']

theorem forall2_comp {α β γ : Type} {R : α → β → Prop} {S : β → γ → Prop}
    {T : α → γ → Prop} (hc : ∀ a b c, R a b → S b c → T a c) :
    ∀ {xs : List α} {ys : List β} {zs : List γ},
      List.Forall₂ R xs ys → List.Forall₂ S ys zs → List.Forall₂ T xs zs := by
  intro xs ys zs h1
  induction h1 generalizing zs with
  | nil =>
    intro h2
    cases h2
    exact List.Forall₂.nil
  | cons hab htl ih =>
    intro h2
    cases h2 with
    | cons hbc htl2 => exact List.Forall₂.cons (hc _ _ _ hab hbc) (ih htl2)

theorem forall2_mem_right {α β : Type} {R : α → β → Prop} :
    ∀ {xs : List α} {ys : List β}, List.Forall₂ R xs ys →
      ∀ {y : β}, y ∈ ys → ∃ x, x ∈ xs ∧ R x y := by
  intro xs ys h
  induction h with
  | nil =>
    intro y hy
    cases hy
  | cons hab htl ih =>
    intro y hy
    rcases List.mem_cons.mp hy with h1 | h2
    · subst h1
      exact ⟨_, List.mem_cons_self _ _, hab⟩
    · rcases ih h2 with ⟨x, hx, hR⟩
      exact ⟨x, List.mem_cons_of_mem _ hx, hR⟩

theorem forall2_map_eq {α β γ : Type} {f : α → γ} {g : β → γ} :
    ∀ {xs : List α} {ys : List β},
      List.Forall₂ (fun a b => g b = f a) xs ys → ys.map g = xs.map f := by
  intro xs ys h
  induction h with
  | nil => rfl
  | cons hab _ ih => simp only [List.map, hab, ih]

theorem keep_item_ok_shape (wl : List Value) (item : Fields) (b : Bool)
    (h : keep_item wl item = .ok b) :
    (b = true ↔ ((item.pyGet "inv_type" = Value.vInt 12 ∧
       (∃ q, item.pyGet "quality" = Value.vInt q ∧ 3 ≤ q) ∧
       (∃ l, item.pyGet "ilevel" = Value.vInt l ∧ 155 ≤ l)) ∨
      is_whitelisted wl item = true)) := by
  cases ht : is_trinket item with
  | false =>
    have hinv : ¬ item.pyGet "inv_type" = Value.vInt 12 := by
      simpa [is_trinket] using ht
    have hkeep : keep_item wl item = Except.ok (is_whitelisted wl item) := by
      simp [keep_item, ht]
    rw [hkeep] at h
    have hb := Except.ok.inj h
    subst hb
    simp [hinv]
  | true =>
    have hinv : item.pyGet "inv_type" = Value.vInt 12 := by
      simpa [is_trinket] using ht
    cases hq : item.pyGet "quality" with
    | vInt q =>
      by_cases hq3 : 3 ≤ q
      · cases hl : item.pyGet "ilevel" with
        | vInt l =>
          by_cases hl155 : 155 ≤ l
          · have hkeep : keep_item wl item = Except.ok true := by
              simp [keep_item, ht, is_gte_rare, hq, hq3, is_shadowlands,
                is_gte_ilevel, hl, hl155]
            rw [hkeep] at h
            have hb := Except.ok.inj h
            subst hb
            simp only [true_iff]
            exact Or.inl ⟨hinv, ⟨q, rfl, hq3⟩, ⟨l, rfl, hl155⟩⟩
          · have hkeep : keep_item wl item =
                Except.ok (is_whitelisted wl item) := by
              simp [keep_item, ht, is_gte_rare, hq, hq3, is_shadowlands,
                is_gte_ilevel, hl, hl155]
            rw [hkeep] at h
            have hb := Except.ok.inj h
            subst hb
            constructor
            · intro hw
              exact Or.inr hw
            · rintro (⟨_, _, l', hl', h155'⟩ | hw)
              · have hll := Value.vInt.inj hl'
                subst hll
                exact absurd h155' hl155
              · exact hw
        | vNull =>
          simp [keep_item, ht, is_gte_rare, hq, hq3, is_shadowlands,
            is_gte_ilevel, hl] at h
        | vStr s =>
          simp [keep_item, ht, is_gte_rare, hq, hq3, is_shadowlands,
            is_gte_ilevel, hl] at h
        | vDict d =>
          simp [keep_item, ht, is_gte_rare, hq, hq3, is_shadowlands,
            is_gte_ilevel, hl] at h
      · have hkeep : keep_item wl item =
            Except.ok (is_whitelisted wl item) := by
          simp [keep_item, ht, is_gte_rare, hq, hq3]
        rw [hkeep] at h
        have hb := Except.ok.inj h
        subst hb
        constructor
        · intro hw
          exact Or.inr hw
        · rintro (⟨_, ⟨q', hq', h3'⟩, _⟩ | hw)
          · have hqq := Value.vInt.inj hq'
            subst hqq
            exact absurd h3' hq3
          · exact hw
    | vNull => simp [keep_item, ht, is_gte_rare, hq] at h
    | vStr s => simp [keep_item, ht, is_gte_rare, hq] at h
    | vDict d => simp [keep_item, ht, is_gte_rare, hq] at h

theorem filter_items_mem (wl : List Value) : ∀ (items out : List Fields),
    filter_items wl items = .ok out →
    ∀ item, (item ∈ out ↔ (item ∈ items ∧ keep_item wl item = .ok true))
  | [], out, h, item => by
    simp only [filter_items, Except.ok.injEq] at h
    subst h
    simp
  | it :: rest, out, h, item => by
    cases hk : keep_item wl it with
    | error e => simp [filter_items, hk] at h
    | ok b =>
      cases hrest : filter_items wl rest with
      | error e => simp [filter_items, hk, hrest] at h
      | ok tail =>
        have ih := filter_items_mem wl rest tail hrest item
        cases b with
        | true =>
          have hout : out = it :: tail := by
            have h' : Except.ok (it :: tail) =
                (Except.ok out : Except String (List Fields)) := by
              simpa [filter_items, hk, hrest] using h
            exact (Except.ok.inj h').symm
          subst hout
          constructor
          · intro hmem
            rcases List.mem_cons.mp hmem with h1 | h1
            · exact ⟨List.mem_cons.mpr (Or.inl h1), h1 ▸ hk⟩
            · rcases ih.mp h1 with ⟨h2, h3⟩
              exact ⟨List.mem_cons.mpr (Or.inr h2), h3⟩
          · rintro ⟨hmem, hkeep⟩
            rcases List.mem_cons.mp hmem with h1 | h1
            · exact List.mem_cons.mpr (Or.inl h1)
            · exact List.mem_cons.mpr (Or.inr (ih.mpr ⟨h1, hkeep⟩))
        | false =>
          have hout : out = tail := by
            have h' : Except.ok tail =
                (Except.ok out : Except String (List Fields)) := by
              simpa [filter_items, hk, hrest] using h
            exact (Except.ok.inj h').symm
          subst hout
          constructor
          · intro hmem
            rcases ih.mp hmem with ⟨h2, h3⟩
            exact ⟨List.mem_cons.mpr (Or.inr h2), h3⟩
          · rintro ⟨hmem, hkeep⟩
            rcases List.mem_cons.mp hmem with h1 | h1
            · rw [h1] at hkeep
              rw [hkeep] at hk
              cases Except.ok.inj hk
            · exact ih.mpr ⟨h1, hkeep⟩

theorem filter_items_defined (wl : List Value) : ∀ (items out : List Fields),
    filter_items wl items = .ok out →
    ∀ item, item ∈ items → ∃ b, keep_item wl item = .ok b
  | [], _, _, item, hmem => by cases hmem
  | it :: rest, out, h, item, hmem => by
    cases hk : keep_item wl it with
    | error e => simp [filter_items, hk] at h
    | ok b =>
      cases hrest : filter_items wl rest with
      | error e => simp [filter_items, hk, hrest] at h
      | ok tail =>
        rcases List.mem_cons.mp hmem with h1 | h2
        · exact ⟨b, h1 ▸ hk⟩
        · exact filter_items_defined wl rest tail hrest item h2

theorem seed_item_shape (locale : String) (item t : Fields)
    (h : seed_item locale item = .ok t) :
    ∃ nm, item.get? "name" = some nm ∧
      t = item.set "translations"
        (Value.vDict (Fields.cons locale nm Fields.nil)) := by
  cases hn : item.get? "name" with
  | none => simp [seed_item, Fields.getE, hn] at h
  | some nm =>
    cases hb : build_new_item
        (item.set "translations" (Value.vDict (Fields.cons locale nm Fields.nil)))
        item_keys Fields.nil with
    | error e => simp [seed_item, Fields.getE, hn, hb] at h
    | ok nit =>
      have ht : Except.ok (item.set "translations"
          (Value.vDict (Fields.cons locale nm Fields.nil))) =
          (Except.ok t : Except String Fields) := by
        simpa [seed_item, Fields.getE, hn, hb] using h
      exact ⟨nm, rfl, (Except.ok.inj ht).symm⟩

theorem seed_items_forall2 (locale : String) : ∀ (items ts : List Fields),
    seed_items locale items = .ok ts →
    List.Forall₂ (fun item t => seed_item locale item = .ok t) items ts
  | [], ts, h => by
    simp only [seed_items, Except.ok.injEq] at h
    subst h
    exact List.Forall₂.nil
  | item :: rest, ts, h => by
    cases hs : seed_item locale item with
    | error e => simp [seed_items, hs] at h
    | ok t =>
      cases hr : seed_items locale rest with
      | error e => simp [seed_items, hs, hr] at h
      | ok ts1 =>
        have hts : Except.ok (t :: ts1) =
            (Except.ok ts : Except String (List Fields)) := by
          simpa [seed_items, hs, hr] using h
        have heq := Except.ok.inj hts
        subst heq
        exact List.Forall₂.cons hs (seed_items_forall2 locale rest ts1 hr)

theorem enrich_trinket_shape (locale : String) (item trinket t' : Fields)
    (h : enrich_trinket locale item trinket = .ok t') :
    ∃ tid iid, trinket.get? "id" = some tid ∧ item.get? "id" = some iid ∧
      ((¬ tid = iid ∧ t' = trinket) ∨
       (tid = iid ∧ ∃ nm d, item.get? "name" = some nm ∧
          trinket.get? "translations" = some (Value.vDict d) ∧
          t' = trinket.set "translations" (Value.vDict (d.set locale nm)))) := by
  cases htid : trinket.get? "id" with
  | none => simp [enrich_trinket, Fields.getE, htid] at h
  | some tid =>
    cases hiid : item.get? "id" with
    | none => simp [enrich_trinket, Fields.getE, htid, hiid] at h
    | some iid =>
      by_cases heq : tid = iid
      · cases hnm : item.get? "name" with
        | none =>
          simp [enrich_trinket, Fields.getE, htid, hiid, heq, hnm] at h
        | some nm =>
          cases htr : trinket.get? "translations" with
          | none =>
            simp [enrich_trinket, Fields.getE, htid, hiid, heq, hnm, htr] at h
          | some tv =>
            cases tv with
            | vDict d =>
              have ht : Except.ok (trinket.set "translations"
                  (Value.vDict (d.set locale nm))) =
                  (Except.ok t' : Except String Fields) := by
                simpa [enrich_trinket, Fields.getE, htid, hiid, heq, hnm, htr]
                  using h
              exact ⟨tid, iid, rfl, rfl,
                Or.inr ⟨heq, nm, d, rfl, rfl, (Except.ok.inj ht).symm⟩⟩
            | vNull =>
              simp [enrich_trinket, Fields.getE, htid, hiid, heq, hnm, htr] at h
            | vInt i =>
              simp [enrich_trinket, Fields.getE, htid, hiid, heq, hnm, htr] at h
            | vStr s =>
              simp [enrich_trinket, Fields.getE, htid, hiid, heq, hnm, htr] at h
      · have ht : Except.ok trinket = (Except.ok t' : Except String Fields) := by
          simpa [enrich_trinket, Fields.getE, htid, hiid, heq] using h
        exact ⟨tid, iid, rfl, rfl, Or.inl ⟨heq, (Except.ok.inj ht).symm⟩⟩

theorem enrich_trinket_inv (locale : String) (item t t' : Fields)
    (h : enrich_trinket locale item t = .ok t') :
    EnrichInv locale [item] t t' := by
  rcases enrich_trinket_shape locale item t t' h with
    ⟨tid, iid, htid, hiid, hcase⟩
  rcases hcase with ⟨hne, rfl⟩ | ⟨heq, nm, d0, hnm, htr, rfl⟩
  · refine ⟨fun k _ => rfl, ?_⟩
    intro d hd
    refine ⟨d, hd, fun K => ?_⟩
    constructor
    · exact fun hK => Or.inl hK
    · rintro (hK | ⟨rfl, iv, hiv, it, hit, hiv2⟩)
      · exact hK
      · rw [htid] at hiv
        rcases List.mem_singleton.mp hit with rfl
        rw [hiid] at hiv2
        have h1 : tid = iv := Option.some.inj hiv
        have h2 : iid = iv := Option.some.inj hiv2
        exact absurd (h1.trans h2.symm) hne
  · refine ⟨fun k hk => Fields.get?_set_ne t "translations" k _ hk, ?_⟩
    intro d hd
    rw [htr] at hd
    have hdd : d0 = d := Value.vDict.inj (Option.some.inj hd)
    subst hdd
    refine ⟨d0.set locale nm, Fields.get?_set_self t "translations" _,
      fun K => ?_⟩
    rw [Fields.hasKey_set]
    constructor
    · intro hK
      have hK0 : d0.hasKey K = true ∨ K = locale := by simpa using hK
      rcases hK0 with hK1 | hK1
      · exact Or.inl hK1
      · subst hK1
        refine Or.inr ⟨rfl, tid, htid, item, List.mem_singleton.mpr rfl, ?_⟩
        rw [hiid, heq]
    · rintro (hK | ⟨rfl, _⟩)
      · rw [hK]
        simp
      · simp

theorem enrich_inv_refl (locale : String) (t : Fields) :
    EnrichInv locale [] t t := by
  refine ⟨fun k _ => rfl, ?_⟩
  intro d hd
  refine ⟨d, hd, fun K => ?_⟩
  simp

theorem enrich_inv_comp (locale : String) (items1 items2 : List Fields)
    (t t1 t2 : Fields) (h1 : EnrichInv locale items1 t t1)
    (h2 : EnrichInv locale items2 t1 t2) :
    EnrichInv locale (items1 ++ items2) t t2 := by
  obtain ⟨ha1, hb1⟩ := h1
  obtain ⟨ha2, hb2⟩ := h2
  have hid : t1.get? "id" = t.get? "id" := ha1 "id" (by decide)
  refine ⟨fun k hk => (ha2 k hk).trans (ha1 k hk), ?_⟩
  intro d hd
  rcases hb1 d hd with ⟨d1, hd1, hiff1⟩
  rcases hb2 d1 hd1 with ⟨d2, hd2, hiff2⟩
  refine ⟨d2, hd2, fun K => ?_⟩
  rw [hiff2 K, hiff1 K]
  constructor
  · rintro ((hK | ⟨rfl, iv, hiv, it, hit, hiv2⟩) | ⟨rfl, iv, hiv, it, hit, hiv2⟩)
    · exact Or.inl hK
    · exact Or.inr ⟨rfl, iv, hiv, it, List.mem_append.mpr (Or.inl hit), hiv2⟩
    · refine Or.inr ⟨rfl, iv, ?_, it, List.mem_append.mpr (Or.inr hit), hiv2⟩
      rw [← hid]
      exact hiv
  · rintro (hK | ⟨rfl, iv, hiv, it, hit, hiv2⟩)
    · exact Or.inl (Or.inl hK)
    · rcases List.mem_append.mp hit with hmem | hmem
      · exact Or.inl (Or.inr ⟨rfl, iv, hiv, it, hmem, hiv2⟩)
      · refine Or.inr ⟨rfl, iv, ?_, it, hmem, hiv2⟩
        rw [hid]
        exact hiv

theorem enrich_one_forall2 (locale : String) (item : Fields) :
    ∀ (ts ts' : List Fields), enrich_one locale item ts = .ok ts' →
      List.Forall₂ (EnrichInv locale [item]) ts ts'
  | [], ts', h => by
    simp only [enrich_one, Except.ok.injEq] at h
    subst h
    exact List.Forall₂.nil
  | t :: ts, ts', h => by
    cases he : enrich_trinket locale item t with
    | error e => simp [enrich_one, he] at h
    | ok t1 =>
      cases hr : enrich_one locale item ts with
      | error e => simp [enrich_one, he, hr] at h
      | ok ts1 =>
        have hts : Except.ok (t1 :: ts1) =
            (Except.ok ts' : Except String (List Fields)) := by
          simpa [enrich_one, he, hr] using h
        have heq := Except.ok.inj hts
        subst heq
        exact List.Forall₂.cons (enrich_trinket_inv locale item t t1 he)
          (enrich_one_forall2 locale item ts ts1 hr)

theorem enrich_items_forall2 (locale : String) :
    ∀ (items ts ts' : List Fields), enrich_items locale ts items = .ok ts' →
      List.Forall₂ (EnrichInv locale items) ts ts'
  | [], ts, ts', h => by
    simp only [enrich_items, Except.ok.injEq] at h
    subst h
    exact List.forall₂_same.mpr (fun t _ => enrich_inv_refl locale t)
  | item :: rest, ts, ts', h => by
    cases ho : enrich_one locale item ts with
    | error e => simp [enrich_items, ho] at h
    | ok ts1 =>
      have h2 : enrich_items locale ts1 rest = .ok ts' := by
        simpa [enrich_items, ho] using h
      exact forall2_comp
        (fun a b c hab hbc => by
          have hcomp := enrich_inv_comp locale [item] rest a b c hab hbc
          simpa using hcomp)
        (enrich_one_forall2 locale item ts ts1 ho)
        (enrich_items_forall2 locale rest ts1 ts' h2)

theorem locales_inv_of_enrich (locale : String) (data : String → List Fields)
    (t t' : Fields) (h : EnrichInv locale (data locale) t t') :
    LocalesInv data [locale] t t' := by
  obtain ⟨ha, hb⟩ := h
  refine ⟨ha, ?_⟩
  intro d hd
  rcases hb d hd with ⟨d', hd', hiff⟩
  refine ⟨d', hd', fun K => ?_⟩
  rw [hiff K]
  constructor
  · rintro (hK | ⟨rfl, hrest⟩)
    · exact Or.inl hK
    · exact Or.inr ⟨List.mem_singleton.mpr rfl, hrest⟩
  · rintro (hK | ⟨hKmem, hrest⟩)
    · exact Or.inl hK
    · rcases List.mem_singleton.mp hKmem with rfl
      exact Or.inr ⟨rfl, hrest⟩

theorem locales_inv_refl (data : String → List Fields) (t : Fields) :
    LocalesInv data [] t t := by
  refine ⟨fun k _ => rfl, ?_⟩
  intro d hd
  refine ⟨d, hd, fun K => ?_⟩
  simp

theorem locales_inv_comp (data : String → List Fields) (Ls1 Ls2 : List String)
    (t t1 t2 : Fields) (h1 : LocalesInv data Ls1 t t1)
    (h2 : LocalesInv data Ls2 t1 t2) :
    LocalesInv data (Ls1 ++ Ls2) t t2 := by
  obtain ⟨ha1, hb1⟩ := h1
  obtain ⟨ha2, hb2⟩ := h2
  have hid : t1.get? "id" = t.get? "id" := ha1 "id" (by decide)
  refine ⟨fun k hk => (ha2 k hk).trans (ha1 k hk), ?_⟩
  intro d hd
  rcases hb1 d hd with ⟨d1, hd1, hiff1⟩
  rcases hb2 d1 hd1 with ⟨d2, hd2, hiff2⟩
  refine ⟨d2, hd2, fun K => ?_⟩
  rw [hiff2 K, hiff1 K]
  constructor
  · rintro ((hK | ⟨hKmem, iv, hiv, it, hit, hiv2⟩) |
      ⟨hKmem, iv, hiv, it, hit, hiv2⟩)
    · exact Or.inl hK
    · exact Or.inr ⟨List.mem_append.mpr (Or.inl hKmem), iv, hiv, it, hit, hiv2⟩
    · refine Or.inr ⟨List.mem_append.mpr (Or.inr hKmem), iv, ?_, it, hit, hiv2⟩
      rw [← hid]
      exact hiv
  · rintro (hK | ⟨hKmem, iv, hiv, it, hit, hiv2⟩)
    · exact Or.inl (Or.inl hK)
    · rcases List.mem_append.mp hKmem with hmem | hmem
      · exact Or.inl (Or.inr ⟨hmem, iv, hiv, it, hit, hiv2⟩)
      · refine Or.inr ⟨hmem, iv, ?_, it, hit, hiv2⟩
        rw [hid]
        exact hiv

theorem enrich_locales_forall2 (data : String → List Fields) :
    ∀ (Ls : List String) (ts ts' : List Fields),
      enrich_locales data ts Ls = .ok ts' →
      List.Forall₂ (LocalesInv data Ls) ts ts'
  | [], ts, ts', h => by
    simp only [enrich_locales, Except.ok.injEq] at h
    subst h
    exact List.forall₂_same.mpr (fun t _ => locales_inv_refl data t)
  | locale :: rest, ts, ts', h => by
    cases hi : enrich_items locale ts (data locale) with
    | error e => simp [enrich_locales, hi] at h
    | ok ts1 =>
      have h2 : enrich_locales data ts1 rest = .ok ts' := by
        simpa [enrich_locales, hi] using h
      exact forall2_comp
        (fun a b c hab hbc => by
          have hcomp := locales_inv_comp data [locale] rest a b c
            (locales_inv_of_enrich locale data a b hab) hbc
          simpa using hcomp)
        (enrich_items_forall2 locale (data locale) ts ts1 hi)
        (enrich_locales_forall2 data rest ts1 ts' h2)

theorem merge_pass_translations (first : String) (rest : List String)
    (data : String → List Fields) (trinkets : List Fields)
    (hnd : (first :: rest).Nodup)
    (hm : merge_pass (first :: rest) data = .ok trinkets)
    (t : Fields) (ht : t ∈ trinkets) (L2 : String) (hL2 : L2 ∈ rest) :
    ∃ d, t.get? "translations" = some (Value.vDict d) ∧
      (d.hasKey L2 = true ↔ ∃ iv, t.get? "id" = some iv ∧
        ∃ item ∈ data L2, item.get? "id" = some iv) := by
  cases hs : seed_items first (data first) with
  | error e => simp [merge_pass, hs] at hm
  | ok ts0 =>
    have hel : enrich_locales data ts0 rest = .ok trinkets := by
      simpa [merge_pass, hs] using hm
    rcases forall2_mem_right (enrich_locales_forall2 data rest ts0 trinkets hel)
      ht with ⟨t0, ht0, hinv⟩
    rcases forall2_mem_right (seed_items_forall2 first (data first) ts0 hs)
      ht0 with ⟨item0, hitem0, hseed⟩
    rcases seed_item_shape first item0 t0 hseed with ⟨nm, hnm, rfl⟩
    obtain ⟨ha, hb⟩ := hinv
    have htr0 : (item0.set "translations"
        (Value.vDict (Fields.cons first nm Fields.nil))).get? "translations" =
        some (Value.vDict (Fields.cons first nm Fields.nil)) :=
      Fields.get?_set_self _ _ _
    rcases hb _ htr0 with ⟨d', hd', hiff⟩
    refine ⟨d', hd', ?_⟩
    rw [hiff L2]
    have hL2first : ¬ first = L2 := by
      intro hEq
      subst hEq
      exact (List.nodup_cons.mp hnd).1 hL2
    have hbase : (Fields.cons first nm Fields.nil).hasKey L2 = false := by
      simp [Fields.hasKey, Fields.get?, hL2first]
    constructor
    · rintro (hK | ⟨_, iv, hiv, hrest⟩)
      · rw [hbase] at hK
        cases hK
      · refine ⟨iv, ?_, hrest⟩
        rw [ha "id" (by decide)]
        exact hiv
    · rintro ⟨iv, hiv, hrest⟩
      refine Or.inr ⟨hL2, iv, ?_, hrest⟩
      rw [ha "id" (by decide)] at hiv
      exact hiv

theorem merge_pass_ids (first : String) (rest : List String)
    (data : String → List Fields) (trinkets : List Fields)
    (hm : merge_pass (first :: rest) data = .ok trinkets) :
    trinkets.map (fun t => t.get? "id") =
      (data first).map (fun item => item.get? "id") := by
  cases hs : seed_items first (data first) with
  | error e => simp [merge_pass, hs] at hm
  | ok ts0 =>
    have hel : enrich_locales data ts0 rest = .ok trinkets := by
      simpa [merge_pass, hs] using hm
    have h1 : List.Forall₂ (fun item t0 => t0.get? "id" = item.get? "id")
        (data first) ts0 := by
      refine (seed_items_forall2 first (data first) ts0 hs).imp ?_
      intro item t0 hseed
      rcases seed_item_shape first item t0 hseed with ⟨nm, _, rfl⟩
      exact Fields.get?_set_ne item "translations" "id" _ (by decide)
    have h2 : List.Forall₂ (fun t0 t => t.get? "id" = t0.get? "id")
        ts0 trinkets := by
      refine (enrich_locales_forall2 data rest ts0 trinkets hel).imp ?_
      intro t0 t hinv
      exact hinv.1 "id" (by decide)
    exact forall2_map_eq
      (forall2_comp (fun a b c hab hbc => hbc.trans hab) h1 h2)

theorem infix_flatMap_of_mem {α β : Type} (f : α → List β) :
    ∀ (l : List α) (a : α), a ∈ l → List.IsInfix (f a) (l.flatMap f)
  | [], a, ha => by cases ha
  | x :: xs, a, ha => by
    rcases List.mem_cons.mp ha with rfl | hmem
    · exact ⟨[], xs.flatMap f, by simp⟩
    · rcases infix_flatMap_of_mem f xs a hmem with ⟨s, t, hst⟩
      refine ⟨f x ++ s, t, ?_⟩
      rw [List.flatMap_cons, ← hst]
      simp

theorem casc_locale_command_inj (base : List String) (output l1 l2 : String)
    (h : casc_locale_command base output l1 =
      casc_locale_command base output l2) : l1 = l2 := by
  unfold casc_locale_command at h
  have h2 := List.append_cancel_left h
  simp only [List.cons.injEq] at h2
  exact h2.2.1

theorem count_fetchInvocation_block (env : String → FetchResult)
    (base : List String) (output l : String) (cmd : List String) :
    (casc_locale_events env base output l).count (CascEvent.fetchInvocation cmd) =
      if casc_locale_command base output l = cmd then 1 else 0 := by
  have hmap : ((env l).stdoutLines.map CascEvent.debugLog).count
      (CascEvent.fetchInvocation cmd) = 0 := by
    rw [List.count_eq_zero]
    intro hmem
    rcases List.mem_map.mp hmem with ⟨line, _, hline⟩
    cases hline
  have hif : (if (env l).returncode = 0 then ([] : List CascEvent)
      else [CascEvent.errorLog ("Error occured while loading " ++ l ++ ".")]).count
      (CascEvent.fetchInvocation cmd) = 0 := by
    split
    · rfl
    · rw [List.count_eq_zero]
      intro hmem
      rcases List.mem_singleton.mp hmem with hline
      cases hline
  by_cases h : casc_locale_command base output l = cmd
  · simp [casc_locale_events, List.count_cons, List.count_append, hmap, hif, h]
  · simp [casc_locale_events, List.count_cons, List.count_append, hmap, hif, h]

theorem count_fetchInvocation_casc_loop (env : String → FetchResult)
    (base : List String) (output locale : String) :
    ∀ locs : List String,
      (casc_loop env base output locs).count
        (CascEvent.fetchInvocation (casc_locale_command base output locale)) =
      locs.count locale
  | [] => rfl
  | l :: ls => by
    rw [casc_loop, List.flatMap_cons, List.count_append]
    rw [show (ls.flatMap (casc_locale_events env base output)) =
      casc_loop env base output ls from rfl]
    rw [count_fetchInvocation_casc_loop env base output locale ls]
    rw [count_fetchInvocation_block]
    by_cases h : l = locale
    · subst h
      simp [List.count_cons, Nat.add_comm]
    · have hne : ¬ casc_locale_command base output l =
          casc_locale_command base output locale := by
        intro hEq
        exact h (casc_locale_command_inj base output l locale hEq)
      simp [List.count_cons, h, hne, Ne.symm h]

theorem casc_errorLog_mem_block (env : String → FetchResult)
    (base : List String) (output l : String) (msg : String) :
    (CascEvent.errorLog msg ∈ casc_locale_events env base output l) ↔
      ((env l).returncode ≠ 0 ∧
        msg = "Error occured while loading " ++ l ++ ".") := by
  by_cases hrc : (env l).returncode = 0
  · simp [casc_locale_events, hrc, List.mem_append]
  · simp [casc_locale_events, hrc, List.mem_append, eq_comm]

theorem casc_errorLog_mem_loop (env : String → FetchResult)
    (base : List String) (output : String) (msg : String) :
    ∀ locs : List String,
      (CascEvent.errorLog msg ∈ casc_loop env base output locs) ↔
      ∃ l ∈ locs, (env l).returncode ≠ 0 ∧
        msg = "Error occured while loading " ++ l ++ "."
  | [] => by simp [casc_loop]
  | l :: ls => by
    rw [casc_loop, List.flatMap_cons, List.mem_append]
    rw [show (ls.flatMap (casc_locale_events env base output)) =
      casc_loop env base output ls from rfl]
    rw [casc_errorLog_mem_block, casc_errorLog_mem_loop env base output msg ls]
    constructor
    · rintro (h1 | ⟨l', hl', h2⟩)
      · exact ⟨l, List.mem_cons_self _ _, h1⟩
      · exact ⟨l', List.mem_cons_of_mem _ hl', h2⟩
    · rintro ⟨l', hl', h2⟩
      rcases List.mem_cons.mp hl' with rfl | hmem
      · exact Or.inl h2
      · exact Or.inr ⟨l', hmem, h2⟩

theorem locale_error_msgs_distinct :
    ∀ a ∈ LOCALES, ∀ b ∈ LOCALES,
      ("Error occured while loading " ++ a ++ "." =
       "Error occured while loading " ++ b ++ ".") → a = b := by decide

/-- Claim C1: the spec says every record in the final serialized trinkets
output has its key set fixed to exactly the `item_keys` allow-list, in that
fixed order, with no other keys.  The code builds the restricted `new_item`
but then appends the original record (`trinkets.append(item)`), so on a seed
item carrying one extra key `flavor` the merged output record keeps all 34
original keys (including `flavor`) with `translations` appended at the end —
a key list different from `item_keys`. -/
theorem claim_C1_output_keys :
    (merge_pass LOCALES c1_data).map (List.map Fields.keys) =
      .ok [Fields.keys c1_item ++ ["translations"]] ∧
    ("flavor" ∈ Fields.keys c1_item ++ ["translations"]) ∧
    (Fields.keys c1_item ++ ["translations"]) ≠ item_keys :=
  ⟨rfl, by decide, by decide⟩

/-- Claim C2, counterexample: on the spec's exact fabricated two-locale input
the filter-and-merge pass produces no merged output at all: locale A's item
reaches the seed pass, and the (discarded) `new_item` construction raises
`KeyError` on the first allow-listed key the item lacks, `race_mask`. -/
theorem claim_C2_counterexample :
    update_trinkets_core WHITELIST ["A", "B"] c2_raw =
      .error "KeyError: race_mask" := rfl

/-- Claim C2, amended: with locale A's item extended to carry every
allow-listed attribute, the pass produces exactly one merged record, with
identifier 1, whose translations mapping is exactly `{A ↦ "Foo"}`; locale B's
bare record `{id:1, name:"Faux"}` lacks the trinket inventory-slot field,
fails the filter, and contributes no translation. -/
theorem claim_C2_amended :
    (update_trinkets_core WHITELIST ["A", "B"] c2_amended_raw).map
      (List.map (fun t => (t.get? "id", t.get? "translations"))) =
    .ok [(some (Value.vInt 1),
      some (Value.vDict (Fields.cons "A" (Value.vStr "Foo") Fields.nil)))] := rfl

/-- Claim C3: whenever the filtering comprehension completes, a record is in
the filtered output iff it is in the input and either satisfies the whole
conjunction (trinket slot 12, quality at least 3, item level at least 155) or
is allow-listed: the allow-list disjunct applies to the whole conjunction, so
a record failing the conjunction is included iff allow-listed, and a record
below the item-level floor that is not allow-listed is excluded entirely. -/
theorem claim_C3_filter_grouping (wl : List Value) (items out : List Fields)
    (h : filter_items wl items = .ok out) (item : Fields) :
    item ∈ out ↔ (item ∈ items ∧
      ((item.pyGet "inv_type" = Value.vInt 12 ∧
        (∃ q, item.pyGet "quality" = Value.vInt q ∧ 3 ≤ q) ∧
        (∃ l, item.pyGet "ilevel" = Value.vInt l ∧ 155 ≤ l)) ∨
       is_whitelisted wl item = true)) := by
  rw [filter_items_mem wl items out h item]
  constructor
  · rintro ⟨hmem, hkeep⟩
    exact ⟨hmem, (keep_item_ok_shape wl item true hkeep).mp rfl⟩
  · rintro ⟨hmem, hgroup⟩
    rcases filter_items_defined wl items out h item hmem with ⟨b, hb⟩
    have hbt := (keep_item_ok_shape wl item b hb).mpr hgroup
    rw [hbt] at hb
    exact ⟨hmem, hb⟩

/-- Witness for C3: a non-trinket record whose identifier 7 is on the
allow-list is included by the filter. -/
theorem claim_C3_witness :
    wItem ∈ [wItem] ↔ (wItem ∈ [wItem] ∧
      ((wItem.pyGet "inv_type" = Value.vInt 12 ∧
        (∃ q, wItem.pyGet "quality" = Value.vInt q ∧ 3 ≤ q) ∧
        (∃ l, wItem.pyGet "ilevel" = Value.vInt l ∧ 155 ≤ l)) ∨
       is_whitelisted [Value.vInt 7] wItem = true)) :=
  claim_C3_filter_grouping [Value.vInt 7] [wItem] [wItem] rfl wItem

/-- Claim C4: for the fixed locale list, a merged record's translations
mapping contains an entry keyed by a non-seed locale `L2` iff `L2`'s filtered
record set contains a record whose identifier equals the merged record's
identifier. -/
theorem claim_C4_translations_iff (data : String → List Fields)
    (trinkets : List Fields) (hm : merge_pass LOCALES data = .ok trinkets)
    (t : Fields) (ht : t ∈ trinkets) (L2 : String)
    (hL2 : L2 ∈ LOCALES.tail) :
    ∃ d, t.get? "translations" = some (Value.vDict d) ∧
      (d.hasKey L2 = true ↔ ∃ iv, t.get? "id" = some iv ∧
        ∃ item ∈ data L2, item.get? "id" = some iv) :=
  merge_pass_translations "en_US"
    ["ko_KR", "fr_FR", "de_DE", "zh_CN", "es_ES", "ru_RU", "it_IT", "pt_PT"]
    data trinkets (by decide) hm t ht L2 hL2

/-- Witness for C4: the record merged from `c4_data` carries a `ko_KR`
translation entry, matching the `ko_KR` record with the same identifier. -/
theorem claim_C4_witness :
    ∃ d, c4_rec.get? "translations" = some (Value.vDict d) ∧
      (d.hasKey "ko_KR" = true ↔ ∃ iv, c4_rec.get? "id" = some iv ∧
        ∃ item ∈ c4_data "ko_KR", item.get? "id" = some iv) :=
  claim_C4_translations_iff c4_data [c4_rec] rfl c4_rec
    (List.mem_singleton.mpr rfl) "ko_KR" (by decide)

/-- Claim C5: the merged records' identifiers are exactly (as a sequence, so
in particular as a set) the identifiers of the seeding locale's filtered
record set: enrichment by later locales never adds a record. -/
theorem claim_C5_seed_ids (first : String) (rest : List String)
    (data : String → List Fields) (trinkets : List Fields)
    (hm : merge_pass (first :: rest) data = .ok trinkets) :
    trinkets.map (fun t => t.get? "id") =
      (data first).map (fun item => item.get? "id") :=
  merge_pass_ids first rest data trinkets hm

/-- Witness for C5: merging `c2_amended_raw` over locales A, B keeps exactly
the identifier of A's single record. -/
theorem claim_C5_witness :
    [c5_rec].map (fun t => t.get? "id") =
      (c2_amended_raw "A").map (fun item => item.get? "id") :=
  claim_C5_seed_ids "A" ["B"] c2_amended_raw [c5_rec] rfl

/-- Claim C6: the merge pass is deterministic — two runs over the same
per-locale filtered inputs produce the same output. -/
theorem claim_C6_deterministic (locales : List String)
    (data : String → List Fields) (out1 out2 : Except String (List Fields))
    (h1 : merge_pass locales data = out1)
    (h2 : merge_pass locales data = out2) : out1 = out2 := by
  rw [← h1, ← h2]

/-- Witness for C6: two runs over one locale with no records agree. -/
theorem claim_C6_witness :
    (Except.ok [] : Except String (List Fields)) = Except.ok [] :=
  claim_C6_deterministic ["A"] (fun _ => []) (Except.ok []) (Except.ok [])
    rfl rfl

/-- Claim C10: the `WHITELIST` constant is empty, so `is_whitelisted` is
false for every record and the filter keeps a record exactly when its
inventory slot is 12, its quality is an integer at least 3 and its item level
is an integer at least 155; the `req_level` field (read only by the
never-called `is_gte_level`) does not influence the filter at all. -/
theorem claim_C10_empty_whitelist (item : Fields) :
    is_whitelisted WHITELIST item = false ∧
    (keep_item WHITELIST item = .ok true ↔
      (item.pyGet "inv_type" = Value.vInt 12 ∧
       (∃ q, item.pyGet "quality" = Value.vInt q ∧ 3 ≤ q) ∧
       (∃ l, item.pyGet "ilevel" = Value.vInt l ∧ 155 ≤ l))) ∧
    (∀ v, keep_item WHITELIST (item.set "req_level" v) =
      keep_item WHITELIST item) := by
  have hwl : is_whitelisted WHITELIST item = false := by
    simp [is_whitelisted, WHITELIST]
  refine ⟨hwl, ?_, ?_⟩
  · constructor
    · intro h
      rcases (keep_item_ok_shape WHITELIST item true h).mp rfl with hc | hw
      · exact hc
      · rw [hwl] at hw
        cases hw
    · rintro ⟨hinv, ⟨q, hq, hq3⟩, ⟨l, hl, hl155⟩⟩
      have ht : is_trinket item = true := by
        simp [is_trinket, hinv]
      simp [keep_item, ht, is_gte_rare, hq, hq3, is_shadowlands,
        is_gte_ilevel, hl, hl155]
  · intro v
    have h1 : ∀ k, k ≠ "req_level" →
        (item.set "req_level" v).pyGet k = item.pyGet k := fun k hk => by
      simp [Fields.pyGet, Fields.get?_set_ne item "req_level" k v hk]
    simp only [keep_item, is_trinket, is_gte_rare, is_shadowlands,
      is_gte_ilevel, is_whitelisted,
      h1 "inv_type" (by decide), h1 "quality" (by decide),
      h1 "ilevel" (by decide), h1 "id" (by decide), h1 "name" (by decide)]

/-- Claim C7: for every `(table, locale)` pair processed by the extraction
stage, the pair's events occur within the stage's event trace (pairs after a
failing pair are still processed), the compiled per-locale file
`<output>/compiled/<locale>/<table>.json` is written with the extractor's
captured standard output as content iff the extractor exits with status zero,
and on non-zero exit an error including the captured standard error is logged
and no file is written for that pair. -/
theorem claim_C7_dbc_write_iff (py : PyEnv) (env : String → String → ProcResult)
    (output : String) (files : List String) (events : List DbcEvent)
    (h : dbc_run py false env output files = .ok events)
    (file locale : String) (hf : file ∈ files) (hl : locale ∈ LOCALES) :
    List.IsInfix (dbc_pair_events env output file locale) events ∧
    ((env file locale).returncode = 0 ↔
      DbcEvent.fileWrite
        (get_compiled_data_path output locale ++ "/" ++ file ++ ".json")
        (env file locale).stdout ∈ dbc_pair_events env output file locale) ∧
    ((env file locale).returncode ≠ 0 →
      (DbcEvent.errorLog ("Error occured while extracting " ++ file ++ " " ++
        locale ++ ". " ++ (env file locale).stderr)
        ∈ dbc_pair_events env output file locale ∧
       ∀ p c, ¬ DbcEvent.fileWrite p c ∈ dbc_pair_events env output file locale)) := by
  have hev : events =
      DbcEvent.infoLog "Extracting files (dbc)" :: dbc_loop env output files := by
    cases hg : get_python py with
    | error e => simp [dbc_run, hg] at h
    | ok python =>
      have h2 : Except.ok (DbcEvent.infoLog "Extracting files (dbc)" ::
          dbc_loop env output files) =
          (Except.ok events : Except String (List DbcEvent)) := by
        simpa [dbc_run, hg] using h
      exact (Except.ok.inj h2).symm
  refine ⟨?_, ?_, ?_⟩
  · subst hev
    have h1 : List.IsInfix (dbc_pair_events env output file locale)
        (LOCALES.flatMap (fun l => dbc_pair_events env output file l)) :=
      infix_flatMap_of_mem _ LOCALES locale hl
    have h2 : List.IsInfix
        (LOCALES.flatMap (fun l => dbc_pair_events env output file l))
        (files.flatMap (fun f =>
          LOCALES.flatMap (fun l => dbc_pair_events env output f l))) :=
      infix_flatMap_of_mem
        (fun f => LOCALES.flatMap (fun l => dbc_pair_events env output f l))
        files file hf
    rcases h1.trans h2 with ⟨s, t, hst⟩
    refine ⟨DbcEvent.infoLog "Extracting files (dbc)" :: s, t, ?_⟩
    rw [dbc_loop, ← hst]
    simp
  · by_cases hrc : (env file locale).returncode = 0
    · simp [dbc_pair_events, hrc]
    · simp [dbc_pair_events, hrc]
  · intro hrc
    constructor
    · simp [dbc_pair_events, hrc]
    · intro p c
      simp [dbc_pair_events, hrc]

/-- Witness for C7: a one-table run where `(ItemSparse, en_US)` succeeds. -/
theorem claim_C7_witness :
    List.IsInfix (dbc_pair_events dbcEnvW "out" "ItemSparse" "en_US")
      (DbcEvent.infoLog "Extracting files (dbc)" ::
        dbc_loop dbcEnvW "out" ["ItemSparse"]) ∧
    ((dbcEnvW "ItemSparse" "en_US").returncode = 0 ↔
      DbcEvent.fileWrite
        (get_compiled_data_path "out" "en_US" ++ "/" ++ "ItemSparse" ++ ".json")
        (dbcEnvW "ItemSparse" "en_US").stdout ∈
        dbc_pair_events dbcEnvW "out" "ItemSparse" "en_US") ∧
    ((dbcEnvW "ItemSparse" "en_US").returncode ≠ 0 →
      (DbcEvent.errorLog ("Error occured while extracting " ++ "ItemSparse" ++
        " " ++ "en_US" ++ ". " ++ (dbcEnvW "ItemSparse" "en_US").stderr)
        ∈ dbc_pair_events dbcEnvW "out" "ItemSparse" "en_US" ∧
       ∀ p c, ¬ DbcEvent.fileWrite p c ∈
         dbc_pair_events dbcEnvW "out" "ItemSparse" "en_US")) :=
  claim_C7_dbc_write_iff py3Env dbcEnvW "out" ["ItemSparse"]
    (DbcEvent.infoLog "Extracting files (dbc)" ::
      dbc_loop dbcEnvW "out" ["ItemSparse"])
    rfl "ItemSparse" "en_US" (List.mem_singleton.mpr rfl) (by decide)

/-- Claim C8: in the fetch stage, a non-zero exit for one locale only
produces an error log naming that locale; the fetch command is still issued
exactly once for every locale in the fixed list (no retry, no abort). -/
theorem claim_C8_fetch_continues (py : PyEnv) (ptr beta : Bool)
    (env : String → FetchResult) (output : String) (events : List CascEvent)
    (h : casc_run py false ptr beta env output = .ok events)
    (locale : String) (hl : locale ∈ LOCALES) :
    ∃ python, get_python py = .ok python ∧
      (events.count (CascEvent.fetchInvocation
        (casc_locale_command (casc_base_command python ptr beta)
          output locale)) = 1 ∧
       ((env locale).returncode ≠ 0 →
         CascEvent.errorLog ("Error occured while loading " ++ locale ++ ".")
           ∈ events) ∧
       ((env locale).returncode = 0 →
         ¬ CascEvent.errorLog ("Error occured while loading " ++ locale ++ ".")
           ∈ events)) := by
  cases hg : get_python py with
  | error e => simp [casc_run, hg] at h
  | ok python =>
    have hev : events = CascEvent.infoLog "Downloading files (casc)" ::
        casc_loop env (casc_base_command python ptr beta) output LOCALES := by
      have h2 : Except.ok (CascEvent.infoLog "Downloading files (casc)" ::
          casc_loop env (casc_base_command python ptr beta) output LOCALES) =
          (Except.ok events : Except String (List CascEvent)) := by
        simpa [casc_run, hg] using h
      exact (Except.ok.inj h2).symm
    subst hev
    refine ⟨python, rfl, ?_, ?_, ?_⟩
    · rw [List.count_cons]
      rw [count_fetchInvocation_casc_loop]
      have hone : LOCALES.count locale = 1 :=
        List.count_eq_one_of_mem (by decide) hl
      simp [hone]
    · intro hrc
      refine List.mem_cons_of_mem _ ?_
      exact (casc_errorLog_mem_loop env (casc_base_command python ptr beta)
        output _ LOCALES).mpr ⟨locale, hl, hrc, rfl⟩
    · intro hrc hmem
      rcases List.mem_cons.mp hmem with hbad | hloop
      · cases hbad
      · rcases (casc_errorLog_mem_loop env (casc_base_command python ptr beta)
          output _ LOCALES).mp hloop with ⟨l', hl', hrc', hmsg⟩
        have : locale = l' :=
          locale_error_msgs_distinct locale hl l' hl' hmsg
        subst this
        exact hrc' hrc

/-- Witness for C8: a run where only `fr_FR` fails still issues one fetch
command for `fr_FR` (and logs the error for it). -/
theorem claim_C8_witness :
    ∃ python, get_python py3Env = .ok python ∧
      ((CascEvent.infoLog "Downloading files (casc)" ::
        casc_loop cascEnvW (casc_base_command "python" false false)
          "out" LOCALES).count (CascEvent.fetchInvocation
        (casc_locale_command (casc_base_command python false false)
          "out" "fr_FR")) = 1 ∧
       ((cascEnvW "fr_FR").returncode ≠ 0 →
         CascEvent.errorLog ("Error occured while loading " ++ "fr_FR" ++ ".")
           ∈ CascEvent.infoLog "Downloading files (casc)" ::
             casc_loop cascEnvW (casc_base_command "python" false false)
               "out" LOCALES) ∧
       ((cascEnvW "fr_FR").returncode = 0 →
         ¬ CascEvent.errorLog ("Error occured while loading " ++ "fr_FR" ++ ".")
           ∈ CascEvent.infoLog "Downloading files (casc)" ::
             casc_loop cascEnvW (casc_base_command "python" false false)
               "out" LOCALES)) :=
  claim_C8_fetch_continues py3Env false false cascEnvW "out"
    (CascEvent.infoLog "Downloading files (casc)" ::
      casc_loop cascEnvW (casc_base_command "python" false false) "out" LOCALES)
    rfl "fr_FR" (by decide)

/-- Claim C9: when neither interpreter reports a version starting with `3`,
`get_python` raises `SystemError`, and both the fetch stage and the
extraction stage propagate that error without producing any event trace — in
particular before any fetch or extraction subprocess for any locale is
started; when at least one reports Python 3, `get_python` returns `"python"`
if `python` reports 3 and `"python3"` otherwise. -/
theorem claim_C9_get_python (py : PyEnv) (bp bp3 : Bool)
    (hp : python_reports_3 py.python_version_stdout = .ok bp)
    (hp3 : python_reports_3 py.python3_version_stdout = .ok bp3) :
    (bp = false → bp3 = false →
      (get_python py = .error "SystemError: Python 3 is required." ∧
       (∀ ptr beta env output, casc_run py false ptr beta env output =
         .error "SystemError: Python 3 is required.") ∧
       (∀ env output files, dbc_run py false env output files =
         .error "SystemError: Python 3 is required."))) ∧
    (bp = true → get_python py = .ok "python") ∧
    (bp = false → bp3 = true → get_python py = .ok "python3") := by
  refine ⟨?_, ?_, ?_⟩
  · intro h1 h2
    subst h1
    subst h2
    have hg : get_python py = .error "SystemError: Python 3 is required." := by
      simp [get_python, hp, hp3]
    exact ⟨hg, fun ptr beta env output => by simp [casc_run, hg],
      fun env output files => by simp [dbc_run, hg]⟩
  · intro h1
    subst h1
    simp [get_python, hp]
  · intro h1 h2
    subst h1
    subst h2
    simp [get_python, hp, hp3]

/-- Witness for C9: with both interpreters reporting Python 2.7.18, the run
aborts with `SystemError` before any subprocess event. -/
theorem claim_C9_witness :
    (false = false → false = false →
      (get_python py2Env = .error "SystemError: Python 3 is required." ∧
       (∀ ptr beta env output, casc_run py2Env false ptr beta env output =
         .error "SystemError: Python 3 is required.") ∧
       (∀ env output files, dbc_run py2Env false env output files =
         .error "SystemError: Python 3 is required."))) ∧
    (false = true → get_python py2Env = .ok "python") ∧
    (false = false → false = true → get_python py2Env = .ok "python3") :=
  claim_C9_get_python py2Env false false rfl rfl

end SimcSupport
